import Mathlib

/-!
Verification development for `src/pint/models/timing_model.py`.

The Python module is shallowly embedded: each method of `TimingModel` and
`Component` that the properties below refer to is translated into a Lean
function over explicit state values.  Python exceptions are modelled by the
`PyErr` type below (one constructor per distinct raise site or built-in
failure mode); methods that can raise return `Except PyErr _`, and methods
that mutate state before a possible raise return the final state alongside
the outcome.  Numeric arrays of one observation batch are abstracted to a
single value (the claims under study are about which functions are combined
and how state evolves, not about per-element float arithmetic), with the
batch itself kept as an opaque type parameter `T`.
-/

namespace PintTM

/-- Python exceptions raised by the code under study, one constructor per
distinct raise site / built-in failure mode. -/
inductive PyErr where
  /-- AttributeError from `getattr` on a missing attribute. -/
  | attrNotFound
  /-- AttributeError raised in `d_delay_d_param`:
      "Derivative function for ... is not provided or not registred." -/
  | noDerivRegistered
  /-- TypeError from `component_items[ii][0] += 1` (tuple item assignment). -/
  | typeErrorTupleAssign
  /-- TypeError from arithmetic on `None` (e.g. `None * step`). -/
  | typeErrorNoneArith
  /-- ValueError from `list.remove(x)` when `x` is absent. -/
  | valueErrorNotInList
  /-- UnboundLocalError: local variable `order` referenced before assignment. -/
  | nameErrorUnbound
  /-- IndexError from `delay_list[-1]` on an empty list. -/
  | indexErrorEmpty
  /-- KeyError from a missing dictionary key. -/
  | keyErrorMissing
  /-- AttributeError "No ... in the timing model." raised in
      `get_component_instance` / `add_param_from_top`. -/
  | componentNotFound
  /-- AttributeError raised in `TimingModel.remove_param`; note the code builds
      the message with `param.name` where `param` is a `str`, so the message
      construction itself raises AttributeError.  Either way an AttributeError
      escapes. -/
  | cannotFindParam
deriving DecidableEq, Repr

/-! ### Association-list helpers

Python dictionaries (including `OrderedDict`) are embedded as association
lists.  `alookup` is dictionary lookup, `ainsert` is `d[k] = v` (overwrite in
place, else append), `aerase` is `del d[k]`, `removeFirst` is `list.remove`
(first occurrence; callers check membership where the Python code would raise
`ValueError`). -/

def alookup {α β : Type} [DecidableEq α] : List (α × β) → α → Option β
  | [], _ => none
  | (k, v) :: t, q => if k = q then some v else alookup t q

def ainsert {α β : Type} [DecidableEq α] : List (α × β) → α → β → List (α × β)
  | [], k, v => [(k, v)]
  | (k', v') :: t, k, v => if k' = k then (k, v) :: t else (k', v') :: ainsert t k v

def aerase {α β : Type} [DecidableEq α] : List (α × β) → α → List (α × β)
  | [], _ => []
  | (k', v') :: t, k => if k' = k then t else (k', v') :: aerase t k

def removeFirst {α : Type} [DecidableEq α] : List α → α → List α
  | [], _ => []
  | x :: t, a => if x = a then t else x :: removeFirst t a

/-- Sum of a list of integers (numpy array accumulation `result += ...`,
with the array abstracted to one value). -/
def sumI (l : List Int) : Int := l.foldl (· + ·) 0

namespace DerivM

/-!
### Differentiation engine (`TimingModel.d_phase_d_param`, `d_delay_d_param`)

Slice of the `TimingModel` state needed by the analytic-derivative methods:
the two ordered component dictionaries and the set of attribute names that
`getattr(self, param)` resolves (the flat parameter namespace).  A derivative
function registered by a component has the Python signature
`df(toas, param, delay)`; delay contributions have signature
`df(toas, delay)`.
-/

/-- Slice of a `DelayComponent` instance (`timing_model.py` line 1104). -/
structure DelayComponent (T : Type) where
  category : String
  delay_funcs_component : List (T → Int → Int)
  deriv_funcs : List (String × List (T → String → Option Int → Int))

/-- Slice of a `PhaseComponent` instance (`timing_model.py` line 1110). -/
structure PhaseComponent (T : Type) where
  phase_derivs_wrt_delay : List (T → Int → Int)
  deriv_funcs : List (String × List (T → String → Int → Int))

/-- Slice of `TimingModel`: the two ordered registries plus the flat
parameter namespace reachable through `getattr`. -/
structure TimingModel (T : Type) where
  DelayComponent_dict : List (Int × DelayComponent T)
  PhaseComponent_dict : List (Int × PhaseComponent T)
  params : List String

/-- One step of `TimingModel.get_deriv_funcs`: of a component dictionary entry
`(k, v)`, either `deriv_funcs[k] += v` or `deriv_funcs[k] = v`
(`timing_model.py` lines 262-267). -/
def derivAdd {F : Type} : List (String × List F) → String → List F → List (String × List F)
  | [], k, v => [(k, v)]
  | (k', v') :: t, k, v =>
      if k' = k then (k', v' ++ v) :: t else (k', v') :: derivAdd t k v

/-- `TimingModel.get_deriv_funcs` (lines 258-268): merge the per-component
derivative dictionaries, concatenating function lists on shared keys. -/
def get_deriv_funcs {F : Type} (dicts : List (List (String × List F))) :
    List (String × List F) :=
  dicts.foldl (fun acc d => d.foldl (fun a kv => derivAdd a kv.1 kv.2) acc) []

/-- `TimingModel.delay_deriv_funcs` property (lines 246-248). -/
def TimingModel.delay_deriv_funcs {T : Type} (m : TimingModel T) :
    List (String × List (T → String → Option Int → Int)) :=
  get_deriv_funcs ((m.DelayComponent_dict.map (·.2)).map (·.deriv_funcs))

/-- `TimingModel.phase_deriv_funcs` property (lines 242-244). -/
def TimingModel.phase_deriv_funcs {T : Type} (m : TimingModel T) :
    List (String × List (T → String → Int → Int)) :=
  get_deriv_funcs ((m.PhaseComponent_dict.map (·.2)).map (·.deriv_funcs))

/-- `TimingModel.d_phase_d_delay_funcs` property (lines 250-256): concatenate
every phase component's `phase_derivs_wrt_delay` list. -/
def TimingModel.d_phase_d_delay_funcs {T : Type} (m : TimingModel T) :
    List (T → Int → Int) :=
  (m.PhaseComponent_dict.map (fun p => p.2.phase_derivs_wrt_delay)).flatten

/-- `TimingModel.d_delay_d_param` (lines 639-652).  `getattr(self, param)`
fails for an unknown attribute; then the merged delay-derivative dictionary
is consulted: a missing key raises
`AttributeError("Derivative function ... not registred")`, otherwise the
registered functions' outputs are summed. -/
def TimingModel.d_delay_d_param {T : Type} (m : TimingModel T) (toas : T)
    (param : String) (acc_delay : Option Int) : Except PyErr Int :=
  if param ∈ m.params then
    match alookup m.delay_deriv_funcs param with
    | none => .error PyErr.noDerivRegistered
    | some dfs => .ok (sumI (dfs.map (fun df => df toas param acc_delay)))
  else .error PyErr.attrNotFound

/-- `TimingModel.d_phase_d_param` (lines 609-637).  If `param` is a key of the
merged phase-derivative dictionary, the registered functions' outputs are
summed; otherwise the chain rule is applied:
`(sum of d_phase_d_delay functions) * d_delay_d_param(toas, param)`. -/
def TimingModel.d_phase_d_param {T : Type} (m : TimingModel T) (toas : T)
    (delay : Int) (param : String) : Except PyErr Int :=
  if param ∈ m.params then
    match alookup m.phase_deriv_funcs param with
    | some dfs => .ok (sumI (dfs.map (fun df => df toas param delay)))
    | none =>
      match m.d_delay_d_param toas param none with
      | .error e => .error e
      | .ok dd =>
          .ok (sumI (m.d_phase_d_delay_funcs.map (fun f => f toas delay)) * dd)
  else .error PyErr.attrNotFound

/-!
### `TimingModel.get_barycentric_correction` (lines 535-565)

The accumulation `delay += df(toas, delay)` over one component's
`delay_funcs_component`, then the loop over the ordered delay dictionary that
breaks at the first order key above `end_order`.
-/

/-- The inner loop body: apply one component's delay functions to the running
delay (`delay += df(toas, delay)`, lines 563-564). -/
def applyDelayFuncs {T : Type} (toas : T) (fs : List (T → Int → Int)) (d0 : Int) : Int :=
  fs.foldl (fun d df => d + df toas d) d0

/-- Accumulate the delay contributions of a list of components in order. -/
def accumOrdered {T : Type} (toas : T) (comps : List (DelayComponent T)) (d0 : Int) : Int :=
  comps.foldl (fun d c => applyDelayFuncs toas c.delay_funcs_component d) d0

/-- The contribution loop of `get_barycentric_correction` (lines 560-564):
process entries in order, breaking at the first key exceeding `end_order`. -/
def bcLoop {T : Type} (toas : T) (endOrder : Int) :
    List (Int × DelayComponent T) → Int → Int
  | [], d => d
  | (k, c) :: rest, d =>
      if endOrder < k then d
      else bcLoop toas endOrder rest (applyDelayFuncs toas c.delay_funcs_component d)

/-- The `end_order` search loop of `get_barycentric_correction`
(lines 548-557, the `last_component_order is None` case before the
`end_order == 0` fallback): `end_order` starts at 0 and is set to
`delay_list[ii - 1][0]` at the first component of category "binary" — note
that for `ii = 0` the Python index `-1` selects the LAST entry. -/
def bcEndOrder0 {T : Type} (delay_list : List (Int × DelayComponent T)) : Int :=
  match delay_list.findIdx? (fun c => c.2.category == ("binary")) with
  | some ii =>
      if ii = 0 then ((delay_list.getLast?).map (fun p => p.1)).getD 0
      else ((delay_list[ii - 1]?).map (fun p => p.1)).getD 0
  | none => 0

/-- `TimingModel.get_barycentric_correction` (lines 535-565).  If the
`end_order` search left 0 (no binary component, or a predecessor key of 0)
it falls back to the last entry's key, raising IndexError on an empty
dictionary; finally the contribution loop runs. -/
def TimingModel.get_barycentric_correction {T : Type} (m : TimingModel T)
    (toas : T) (last_component_order : Option Int) : Except PyErr Int :=
  match last_component_order with
  | some o => .ok (bcLoop toas o m.DelayComponent_dict 0)
  | none =>
    let e0 : Int := bcEndOrder0 m.DelayComponent_dict
    if e0 = 0 then
      match m.DelayComponent_dict.getLast? with
      | none => .error PyErr.indexErrorEmpty
      | some p => .ok (bcLoop toas p.1 m.DelayComponent_dict 0)
    else .ok (bcLoop toas e0 m.DelayComponent_dict 0)

/-! ### Concrete witness model for the derivative engine -/

/-- A concrete model over a trivial batch type: one delay component with a
delay derivative registered for "DM", one phase component with a phase
derivative registered for "F0" and one phase-wrt-delay derivative. -/
def mW : TimingModel Unit :=
  { DelayComponent_dict :=
      [(1, { category := ("solar_system")
             delay_funcs_component := [fun _ _ => 10]
             deriv_funcs := [(("DM"), [fun _ _ _ => 3])] })]
    PhaseComponent_dict :=
      [(1, { phase_derivs_wrt_delay := [fun _ _ => 2]
             deriv_funcs := [(("F0"), [fun _ _ _ => 5])] })]
    params := [("DM"), ("F0"), ("RAJ")] }

/-- A binary delay component contributing a constant 5, and a non-binary one
contributing a constant 7, for the C4 counterexample. -/
def binC : DelayComponent Unit :=
  { category := ("binary")
    delay_funcs_component := [fun _ _ => 5]
    deriv_funcs := [] }

def othC : DelayComponent Unit :=
  { category := ("solar_system")
    delay_funcs_component := [fun _ _ => 7]
    deriv_funcs := [] }

def othC2 : DelayComponent Unit :=
  { category := ("dispersion")
    delay_funcs_component := [fun _ _ => 11]
    deriv_funcs := [] }

/-- Registry whose FIRST delay component is the binary one. -/
def mBinFirst : TimingModel Unit :=
  { DelayComponent_dict := [(1, binC), (2, othC)]
    PhaseComponent_dict := []
    params := [] }

/-- Registry with a non-binary component before the binary one. -/
def mBinSecond : TimingModel Unit :=
  { DelayComponent_dict := [(1, othC), (2, binC), (3, othC2)]
    PhaseComponent_dict := []
    params := [] }

end DerivM

namespace DerivM

/-! Helper lemmas about `bcLoop`, `takeWhile` and sorted keys. -/

theorem bcLoop_eq_takeWhile {T : Type} (toas : T) (e : Int) :
    ∀ (l : List (Int × DelayComponent T)) (d : Int),
      bcLoop toas e l d =
        accumOrdered toas ((l.takeWhile (fun p => decide (p.1 ≤ e))).map (·.2)) d := by
  intro l
  induction l with
  | nil => intro d; rfl
  | cons hd tl ih =>
    intro d
    obtain ⟨k, c⟩ := hd
    by_cases hk : e < k
    · have hdec : (decide (k ≤ e)) = false := by
        simp [decide_eq_false_iff_not]; omega
      simp [bcLoop, if_pos hk, List.takeWhile_cons, hdec, accumOrdered]
    · have hdec : (decide (k ≤ e)) = true := by
        simp [decide_eq_true_eq]; omega
      simp only [bcLoop, if_neg hk, List.takeWhile_cons, hdec]
      simp only [List.map_cons, accumOrdered, List.foldl_cons] at ih ⊢
      exact ih _

theorem takeWhile_append_all {α : Type} (p : α → Bool) :
    ∀ (l r : List α), (∀ a ∈ l, p a = true) →
      (l ++ r).takeWhile p = l ++ r.takeWhile p := by
  intro l
  induction l with
  | nil => intro r _; rfl
  | cons hd tl ih =>
    intro r hall
    have hp : p hd = true := hall hd (List.mem_cons_self hd tl)
    simp only [List.cons_append, List.takeWhile_cons, hp, if_pos]
    rw [ih r (fun a ha => hall a (List.mem_cons_of_mem hd ha))]

theorem takeWhile_eq_self_of_all {α : Type} (p : α → Bool) (l : List α)
    (h : ∀ a ∈ l, p a = true) : l.takeWhile p = l := by
  have := takeWhile_append_all p l [] h
  simpa using this

theorem le_getLast_of_pairwise {β : Type} :
    ∀ (l : List (Int × β)) (q : Int × β),
      List.Pairwise (fun a b => a.1 < b.1) l → l.getLast? = some q →
      ∀ a ∈ l, a.1 ≤ q.1 := by
  intro l
  induction l with
  | nil => intro q _ hlast; cases hlast
  | cons hd tl ih =>
    intro q hpw hlast a ha
    cases tl with
    | nil =>
      simp only [List.getLast?_singleton, Option.some.injEq] at hlast
      rcases List.mem_singleton.mp ha with rfl
      simp [hlast]
    | cons hd2 tl2 =>
      have hlast' : (hd2 :: tl2).getLast? = some q := by
        simpa [List.getLast?_cons_cons] using hlast
      have hpw' := List.Pairwise.of_cons hpw
      rcases List.mem_cons.mp ha with rfl | hmem
      · have hq : q ∈ hd2 :: tl2 := by
          have := List.mem_getLast?_eq_getLast (l := hd2 :: tl2) hlast'
          rcases this with ⟨hne, heq⟩
          rw [heq]; exact List.getLast_mem hne
        have := (List.pairwise_cons.mp hpw).1 q hq
        omega
      · exact ih q hpw' hlast' a hmem

theorem findIdx?_append_first {α : Type} (p : α → Bool) :
    ∀ (pre : List α) (x : α) (suf : List α),
      (∀ a ∈ pre, p a = false) → p x = true →
      (pre ++ x :: suf).findIdx? p = some pre.length := by
  intro pre
  induction pre with
  | nil =>
    intro x suf _ hx
    simp [List.findIdx?_cons, hx]
  | cons hd tl ih =>
    intro x suf hall hx
    have hp : p hd = false := hall hd (List.mem_cons_self hd tl)
    have := ih x suf (fun a ha => hall a (List.mem_cons_of_mem hd ha)) hx
    simp only [List.cons_append, List.findIdx?_cons, hp, Bool.false_eq_true,
      if_false, List.findIdx?_succ, this, Option.map_some']
    rfl

/-- On a strictly key-sorted association list, `takeWhile (key ≤ o)` is the
same as `filter (key ≤ o)`: once one key exceeds `o`, all later ones do. -/
theorem takeWhile_eq_filter_of_pairwise {β : Type} (o : Int) :
    ∀ (l : List (Int × β)), List.Pairwise (fun a b => a.1 < b.1) l →
      l.takeWhile (fun p => decide (p.1 ≤ o)) =
        l.filter (fun p => decide (p.1 ≤ o)) := by
  intro l
  induction l with
  | nil => intro _; rfl
  | cons hd tl ih =>
    intro hpw
    have hpw' := List.Pairwise.of_cons hpw
    by_cases hk : hd.1 ≤ o
    · have hdec : (decide (hd.1 ≤ o)) = true := by simpa using hk
      simp only [List.takeWhile_cons, hdec, if_pos, List.filter_cons]
      rw [ih hpw']
    · have hdec : (decide (hd.1 ≤ o)) = false := by simpa using hk
      have hnil : tl.filter (fun p => decide (p.1 ≤ o)) = [] := by
        apply List.filter_eq_nil_iff.mpr
        intro a ha
        have := (List.pairwise_cons.mp hpw).1 a ha
        simp only [decide_eq_true_eq]
        omega
      simp [List.takeWhile_cons, hdec, List.filter_cons, hnil]

/-- C4 (counterexample): in a registry whose first delay component has
category "binary" (order 1, contributing 5; a second component at order 2
contributes 7), `get_barycentric_correction` with no cutoff returns 12 —
every component, including the binary one, contributes — whereas the claim
says no delay component contributes (result 0). -/
theorem get_barycentric_correction_binary_first_cex :
    mBinFirst.get_barycentric_correction () none = .ok 12 ∧
    (12 : Int) ≠ (0 : Int) := by
  constructor
  · rfl
  · decide

/-- C4 (amended): with an explicit cutoff `o`, exactly the delay components
with order key at most `o` contribute, in order.  With no cutoff and the
first binary component NOT first in the dictionary (all keys positive,
strictly sorted), exactly the components strictly preceding it contribute.
But when the binary component is the FIRST delay component, the Python index
`delay_list[ii - 1]` wraps to the last entry, so the cutoff becomes the last
component's key and every delay component — including the binary one —
contributes. -/
theorem get_barycentric_correction_spec {T : Type} :
    (∀ (m : TimingModel T) (toas : T) (o : Int),
      List.Pairwise (fun a b => a.1 < b.1) m.DelayComponent_dict →
      m.get_barycentric_correction toas (some o) =
        .ok (accumOrdered toas
          ((m.DelayComponent_dict.filter (fun p => decide (p.1 ≤ o))).map (·.2)) 0)) ∧
    (∀ (m : TimingModel T) (toas : T) (pre suf : List (Int × DelayComponent T))
        (kb : Int) (cb : DelayComponent T),
      m.DelayComponent_dict = pre ++ (kb, cb) :: suf →
      cb.category = ("binary") →
      (∀ p ∈ pre, ¬ p.2.category = ("binary")) →
      pre ≠ [] →
      List.Pairwise (fun a b => a.1 < b.1) m.DelayComponent_dict →
      (∀ p ∈ m.DelayComponent_dict, 1 ≤ p.1) →
      m.get_barycentric_correction toas none =
        .ok (accumOrdered toas (pre.map (·.2)) 0)) ∧
    (∀ (m : TimingModel T) (toas : T) (kb : Int) (cb : DelayComponent T)
        (rest : List (Int × DelayComponent T)),
      m.DelayComponent_dict = (kb, cb) :: rest →
      cb.category = ("binary") →
      List.Pairwise (fun a b => a.1 < b.1) m.DelayComponent_dict →
      m.get_barycentric_correction toas none =
        .ok (accumOrdered toas (m.DelayComponent_dict.map (·.2)) 0)) := by
  refine ⟨?_, ?_, ?_⟩
  · intro m toas o hpw
    simp only [TimingModel.get_barycentric_correction]
    rw [bcLoop_eq_takeWhile, takeWhile_eq_filter_of_pairwise o _ hpw]
  · intro m toas pre suf kb cb hdl hcb hpre hprene hpw hpos
    have hfind : m.DelayComponent_dict.findIdx?
        (fun c => c.2.category == ("binary")) = some pre.length := by
      rw [hdl]
      apply findIdx?_append_first
      · intro a ha
        simpa using hpre a ha
      · simpa using hcb
    obtain ⟨q, hq⟩ : ∃ q, pre.getLast? = some q := by
      cases hql : pre.getLast? with
      | none => exact absurd (List.getLast?_eq_none_iff.mp hql) hprene
      | some q => exact ⟨q, rfl⟩
    have hqmem : q ∈ pre := by
      rcases List.mem_getLast?_eq_getLast (l := pre) hq with ⟨hne, heq⟩
      rw [heq]; exact List.getLast_mem hne
    have hlen0 : pre.length ≠ 0 := by
      simpa [List.length_eq_zero] using hprene
    have hget : m.DelayComponent_dict[pre.length - 1]? = some q := by
      rw [hdl, List.getElem?_append, if_pos (by omega),
        ← List.getLast?_eq_getElem?, hq]
    have hq1 : 1 ≤ q.1 := hpos q (by rw [hdl]; exact List.mem_append_left _ hqmem)
    have hpwpre : List.Pairwise (fun a b => a.1 < b.1) pre := by
      rw [hdl] at hpw
      exact (List.pairwise_append.mp hpw).1
    have hcross : ∀ a ∈ pre, ∀ b ∈ (kb, cb) :: suf, a.1 < b.1 := by
      rw [hdl] at hpw
      exact (List.pairwise_append.mp hpw).2.2
    have he0 : bcEndOrder0 m.DelayComponent_dict = q.1 := by
      simp only [bcEndOrder0, hfind, if_neg hlen0, hget, Option.map_some',
        Option.getD_some]
    have hne0 : ¬ (q.1 = 0) := by omega
    simp only [TimingModel.get_barycentric_correction, he0, if_neg hne0]
    rw [bcLoop_eq_takeWhile, hdl]
    have hallpre : ∀ a ∈ pre, (fun p => decide (p.1 ≤ q.1)) a = true := by
      intro a ha
      simpa using le_getLast_of_pairwise pre q hpwpre hq a ha
    rw [takeWhile_append_all _ pre _ hallpre]
    have hkb : (decide (kb ≤ q.1)) = false := by
      have := hcross q hqmem (kb, cb) (List.mem_cons_self _ _)
      simp only [decide_eq_false_iff_not]
      omega
    simp [List.takeWhile_cons, hkb]
  · intro m toas kb cb rest hdl hcb hpw
    have hfind : m.DelayComponent_dict.findIdx?
        (fun c => c.2.category == ("binary")) = some 0 := by
      rw [hdl]
      simp [List.findIdx?_cons, hcb]
    obtain ⟨q, hq⟩ : ∃ q, m.DelayComponent_dict.getLast? = some q := by
      rw [hdl]
      cases hql : ((kb, cb) :: rest).getLast? with
      | none => simp [List.getLast?_eq_none_iff] at hql
      | some q => exact ⟨q, rfl⟩
    have hall : ∀ a ∈ m.DelayComponent_dict,
        (fun p => decide (p.1 ≤ q.1)) a = true := by
      intro a ha
      simpa using le_getLast_of_pairwise m.DelayComponent_dict q hpw hq a ha
    have hloop : bcLoop toas q.1 m.DelayComponent_dict 0 =
        accumOrdered toas (m.DelayComponent_dict.map (·.2)) 0 := by
      rw [bcLoop_eq_takeWhile, takeWhile_eq_self_of_all _ _ hall]
    have he0 : bcEndOrder0 m.DelayComponent_dict = q.1 := by
      simp only [bcEndOrder0, hfind, if_pos, hq, Option.map_some',
        Option.getD_some]
    simp only [TimingModel.get_barycentric_correction, he0]
    by_cases hz : q.1 = 0
    · rw [if_pos hz]
      simp only [hq, hloop]
    · rw [if_neg hz]
      simp only [hloop]

/-- Witness for C4 (amended): on the registry with the binary component at
order 2, preceded by a component contributing 7, the no-cutoff correction is
7; with an explicit cutoff 3 on the binary-first registry both components
contribute 12; with the binary component first and no cutoff all three kinds
of evidence agree with the code path summing everything. -/
theorem get_barycentric_correction_spec_witness :
    mBinSecond.get_barycentric_correction () none = .ok 7 ∧
    mBinFirst.get_barycentric_correction () (some 3) = .ok 12 := by
  constructor
  · have h := (get_barycentric_correction_spec (T := Unit)).2.1 mBinSecond ()
      [(1, othC)] [(3, othC2)] 2 binC rfl rfl
      (by
        intro p hp
        rcases List.mem_singleton.mp hp with rfl
        decide)
      (List.cons_ne_nil _ _)
      (by
        simp only [mBinSecond, List.pairwise_cons, List.mem_cons,
          List.not_mem_nil, or_false]
        refine ⟨?_, ?_, ?_⟩
        · rintro b (rfl | rfl | rfl) <;> norm_num
        · rintro b rfl
          norm_num
        · simp)
      (by
        intro p hp
        simp only [mBinSecond, List.mem_cons, List.not_mem_nil, or_false] at hp
        rcases hp with rfl | rfl | rfl <;> norm_num)
    rw [h]; rfl
  · have h := (get_barycentric_correction_spec (T := Unit)).1 mBinFirst () 3
      (by
        simp only [mBinFirst, List.pairwise_cons, List.mem_cons,
          List.not_mem_nil, or_false]
        refine ⟨?_, ?_⟩
        · rintro b rfl; norm_num
        · simp)
    rw [h]; rfl

end DerivM

namespace DerivM

/-- C1: for any batch, accumulated delay and parameter resolvable on the
model, `d_phase_d_param` returns the sum of the directly registered phase
derivative functions when the parameter is a key of the merged
phase-derivative dictionary; otherwise it returns the sum of every phase
component's phase-wrt-delay derivative multiplied by `d_delay_d_param`
(errors of which propagate).  The two branches are mutually exclusive. -/
theorem d_phase_d_param_branches {T : Type} (m : TimingModel T) (toas : T)
    (delay : Int) (param : String) (hp : param ∈ m.params) :
    (∀ dfs, alookup m.phase_deriv_funcs param = some dfs →
      m.d_phase_d_param toas delay param =
        .ok (sumI (dfs.map (fun df => df toas param delay)))) ∧
    (alookup m.phase_deriv_funcs param = none →
      m.d_phase_d_param toas delay param =
        (m.d_delay_d_param toas param none).map
          (fun dd =>
            sumI (m.d_phase_d_delay_funcs.map (fun f => f toas delay)) * dd)) := by
  constructor
  · intro dfs hdfs
    simp only [TimingModel.d_phase_d_param, if_pos hp, hdfs]
  · intro hnone
    simp only [TimingModel.d_phase_d_param, if_pos hp, hnone]
    cases m.d_delay_d_param toas param none <;> rfl

/-- Witness for C1: on the concrete model `mW`, the parameter "F0" takes the
direct branch (sum 5) and the parameter "DM" takes the chain-rule branch
(2 * 3 = 6). -/
theorem d_phase_d_param_branches_witness :
    mW.d_phase_d_param () 0 ("F0") = .ok 5 ∧
    mW.d_phase_d_param () 0 ("DM") = .ok 6 := by
  constructor
  · have h := (d_phase_d_param_branches mW () 0 ("F0") (by decide)).1
      [fun _ _ _ => 5] rfl
    rw [h]; rfl
  · have h := (d_phase_d_param_branches mW () 0 ("DM") (by decide)).2 rfl
    rw [h]; rfl

/-- C2: for any batch and any parameter resolvable on the model,
`d_delay_d_param` raises (AttributeError, "Derivative function ... not
registred") exactly when the parameter is not a key of the merged
delay-derivative dictionary, and otherwise returns the sum of all the
registered delay-derivative functions' outputs. -/
theorem d_delay_d_param_spec {T : Type} (m : TimingModel T) (toas : T)
    (param : String) (hp : param ∈ m.params) :
    (alookup m.delay_deriv_funcs param = none →
      m.d_delay_d_param toas param none = .error PyErr.noDerivRegistered) ∧
    (∀ dfs, alookup m.delay_deriv_funcs param = some dfs →
      m.d_delay_d_param toas param none =
        .ok (sumI (dfs.map (fun df => df toas param none)))) := by
  constructor
  · intro hnone
    simp only [TimingModel.d_delay_d_param, if_pos hp, hnone]
  · intro dfs hdfs
    simp only [TimingModel.d_delay_d_param, if_pos hp, hdfs]

/-- Witness for C2: on `mW` the existing parameter "F0" has no registered
delay derivative so an error is raised, while "DM" sums to 3. -/
theorem d_delay_d_param_spec_witness :
    mW.d_delay_d_param () ("F0") none = .error PyErr.noDerivRegistered ∧
    mW.d_delay_d_param () ("DM") none = .ok 3 := by
  constructor
  · exact (d_delay_d_param_spec mW () ("F0") (by decide)).1 rfl
  · have h := (d_delay_d_param_spec mW () ("DM") (by decide)).2
      [fun _ _ _ => 3] rfl
    rw [h]; rfl

end DerivM

namespace NumM

/-!
### Numeric-derivative helpers (`d_phase_d_param_num`, `d_delay_d_param_num`)

These methods temporarily mutate `par.value`, evaluate `self.phase` /
`self.delay` at the two perturbed values, and set the value back.  The slice
of state they touch is the parameter value itself; the total phase / delay
computation is kept as a function of the current parameter value (the one
piece of model state the helper varies), which may raise.  Values are
embedded as rationals (the claims under study are about state restoration,
not float rounding). -/

/-- State slice for the numeric-derivative helpers: the mutable parameter
value (`None` when the parameter was never set) and the phase / delay
computations as functions of the current value. -/
structure NumModel (T : Type) where
  value : Option ℚ
  phaseFn : ℚ → T → Except PyErr ℚ
  delayFn : ℚ → T → Except PyErr ℚ

/-- `TimingModel.d_phase_d_param_num` (lines 654-679).  The perturbation loop
has no `try/except`: if `self.phase` raises at either perturbed value, the
exception propagates with `par.value` still set to that perturbed value; only
on success is the original value restored (line 678).  A `None` original
value makes `ori_value * step` raise TypeError before any mutation. -/
def d_phase_d_param_num {T : Type} (m : NumModel T) (toas : T) (step : ℚ) :
    Except PyErr ℚ × NumModel T :=
  match m.value with
  | none => (.error PyErr.typeErrorNoneArith, m)
  | some ori =>
    let h : ℚ := if ori = 0 then 1 * step else ori * step
    match m.phaseFn (ori - h) toas with
    | .error e => (.error e, { m with value := some (ori - h) })
    | .ok ph1 =>
      match m.phaseFn (ori + h) toas with
      | .error e => (.error e, { m with value := some (ori + h) })
      | .ok ph2 =>
          ((.ok ((-ph1 + ph2) / (2 * h))), { m with value := some ori })

/-- `TimingModel.d_delay_d_param_num` (lines 681-707).  An unset value warns
and returns zeros without mutation; the perturbation loop wraps
`self.delay` in `try/except`, restoring the original value before re-raising;
on success the original value is restored as well (line 706). -/
def d_delay_d_param_num {T : Type} (m : NumModel T) (toas : T) (step : ℚ) :
    Except PyErr ℚ × NumModel T :=
  match m.value with
  | none => (.ok 0, m)
  | some ori =>
    let h : ℚ := if ori = 0 then 1 * step else ori * step
    match m.delayFn (ori - h) toas with
    | .error e => (.error e, { m with value := some ori })
    | .ok d1 =>
      match m.delayFn (ori + h) toas with
      | .error e => (.error e, { m with value := some ori })
      | .ok d2 => ((.ok ((-d1 + d2) / 2 / h)), { m with value := some ori })

/-- Concrete failing input for C3: parameter value 1, a phase / delay
computation that always raises. -/
def mFail : NumModel Unit :=
  { value := some 1
    phaseFn := fun _ _ => .error PyErr.attrNotFound
    delayFn := fun _ _ => .error PyErr.attrNotFound }

end NumM

namespace NumM

/-- C3 (code bug): with parameter value 1 and a raising phase computation,
`d_phase_d_param_num` propagates the exception while leaving the parameter at
the perturbed value 99/100 instead of restoring 1 — its loop has no
`try/except`, unlike the sibling `d_delay_d_param_num`, which on the same
failing computation restores the original value as the claim requires. -/
theorem d_phase_d_param_num_no_restore :
    (d_phase_d_param_num mFail () (1 / 100)).2.value = some ((99 : ℚ) / 100) ∧
    (d_phase_d_param_num mFail () (1 / 100)).2.value ≠ mFail.value ∧
    (d_delay_d_param_num mFail () (1 / 100)).2.value = mFail.value := by
  refine ⟨?_, ?_, ?_⟩ <;> norm_num [d_phase_d_param_num, d_delay_d_param_num, mFail]

end NumM

namespace RegM

/-!
### Component registry (`add_component`, `remove_component`,
`change_component_order`, `components`, `get_component_instance`)

A component instance is identified by its concrete class name (`cls`), the
third-from-last entry of its method resolution order (`ctype`, i.e.
"DelayComponent" / "PhaseComponent" / a later-added type), and an instance
identity (`iid`, standing in for Python object identity, which is what `==`
means for these objects).  The per-type `OrderedDict`s and the attribute
table holding them are embedded as association lists; the Python 2 semantics
of `dict.items()` (a fresh list of tuples) is used, which is the variant
under which most of `add_component` functions — see
`add_component_collision_crash` for the branch that still fails.
-/

structure Comp where
  cls : String
  ctype : String
  iid : Nat
deriving DecidableEq, Repr

abbrev CompDict := List (Int × Comp)

/-- The slice of `TimingModel` state owned by the registry: the
`component_types` list and the `<type>_dict` attributes (lines 149-177). -/
structure TMState where
  component_types : List String
  dicts : List (String × CompDict)
deriving DecidableEq, Repr

/-- `OrderedDict(sorted(items, key=lambda t: t[0]))` (used at lines 340, 349,
361, 374, 396): sort the items by order key.  Insertion sort is stable, like
Python's `sorted`. -/
def sortDict (d : CompDict) : CompDict :=
  List.insertionSort (fun a b => a.1 ≤ b.1) d

/-- `getattr(self, comp_type + '_dict')`. -/
def getDict (s : TMState) (ct : String) : CompDict :=
  (alookup s.dicts ct).getD []

/-- `setattr(self, comp_type + '_dict', d)`. -/
def setDict (s : TMState) (ct : String) (d : CompDict) : TMState :=
  { s with dicts := ainsert s.dicts ct d }

/-- `TimingModel.setup_component_dict` (lines 168-177): create an empty
ordered dictionary for every component type that lacks one. -/
def setup_component_dict (s : TMState) : TMState :=
  { s with
    dicts := s.component_types.foldl
      (fun ds ct => if (alookup ds ct).isSome then ds else ds ++ [(ct, [])])
      s.dicts }

/-- The order key chosen by `add_component` when `order is None`
(lines 327-331): `orders[-1] + 1`, or 1 on an empty dictionary. -/
def appendOrder (orders : List Int) : Int :=
  match orders.getLast? with
  | some last => last + 1
  | none => 1

/-- `TimingModel.add_component` (lines 286-341).  A new component type is
registered first; a duplicate concrete class without `force` warns and
returns with nothing changed; `order=None` appends at `orders[-1] + 1`;
an explicit fresh order is inserted and the items re-sorted; an explicit
colliding order reaches `component_items[ii][0] += 1`, which is an item
assignment on a tuple and raises TypeError (under Python 3, `dict.items()`
has no `index`/`append` at all, so any explicit order raises even earlier).
-/
def add_component (s : TMState) (c : Comp) (order : Option Int) (force : Bool) :
    Except PyErr TMState :=
  let s1 : TMState :=
    if c.ctype ∈ s.component_types then s
    else setup_component_dict
      { s with component_types := s.component_types ++ [c.ctype] }
  let d : CompDict := getDict s1 c.ctype
  let orders : List Int := d.map (fun p => p.1)
  let comp_classes : List String := (d.map (fun p => p.2)).map (fun x => x.cls)
  if c.cls ∈ comp_classes ∧ ¬ force then .ok s1
  else
    match order with
    | none => .ok (setDict s1 c.ctype (d ++ [(appendOrder orders, c)]))
    | some o =>
        if o ∈ orders then .error PyErr.typeErrorTupleAssign
        else .ok (setDict s1 c.ctype (sortDict (d ++ [(o, c)])))

/-- `TimingModel.components` property (lines 217-226): a plain dictionary
keyed by concrete class name, filled in component-type order then dictionary
order; a later component of the same class overwrites the earlier entry. -/
def componentsView (s : TMState) : List (String × Comp) :=
  s.component_types.foldl
    (fun comps ct =>
      (getDict s ct).foldl (fun cs p => ainsert cs p.2.cls p.2) comps)
    []

/-- `TimingModel.get_component_instance` (lines 399-419), instance variant:
the membership test goes through the class-keyed `components` view; the order
key is found by scanning the type dictionary for the matching value (keeping
the LAST match; an absent value leaves the local `order` unbound). -/
def get_component_instance (s : TMState) (c : Comp) :
    Except PyErr (Comp × Int × CompDict × String) :=
  if c ∈ (componentsView s).map (fun p => p.2) then
    let d := getDict s c.ctype
    match (d.filter (fun p => p.2 == c)).getLast? with
    | some kv => .ok (c, kv.1, d, c.ctype)
    | none => .error PyErr.nameErrorUnbound
  else .error PyErr.componentNotFound

/-- `TimingModel.remove_component` (lines 343-350). -/
def remove_component (s : TMState) (c : Comp) : Except PyErr TMState :=
  match get_component_instance s c with
  | .error e => .error e
  | .ok (comp, old_order, d, ct) =>
      if (old_order, comp) ∈ d then
        .ok (setDict s ct (sortDict (removeFirst d (old_order, comp))))
      else .error PyErr.valueErrorNotInList

/-- The index mask of lines 377-385: the existing order keys shifted when
`switch_order` is false — `(old, new]` when moving forward, `[new, old)`
when moving backward. -/
def shiftRange (old_order new_order o : Int) : Bool :=
  if new_order > old_order then decide (old_order < o) && decide (o ≤ new_order)
  else decide (new_order ≤ o) && decide (o < old_order)

/-- `TimingModel.change_component_order` (lines 352-397).  A free new order
re-keys the component; an occupied one either swaps the two keys
(`switch_order=True`) or shifts the keys in `shiftRange` by one toward the
old position to make room. -/
def change_component_order (s : TMState) (c : Comp) (new_order : Int)
    (switch_order : Bool) : Except PyErr TMState :=
  match get_component_instance s c with
  | .error e => .error e
  | .ok (cmp, old_order, d, ct) =>
      let orders : List Int := d.map (fun p => p.1)
      if (old_order, cmp) ∈ d then
        if new_order ∈ orders then
          match alookup d new_order with
          | none => .error PyErr.keyErrorMissing
          | some aff =>
            if switch_order then
              .ok (setDict s ct (sortDict
                ((removeFirst ((removeFirst d (new_order, aff)) ++
                    [(new_order, cmp)]) (old_order, cmp)) ++ [(old_order, aff)])))
            else
              let factor : Int := if new_order > old_order then -1 else 1
              .ok (setDict s ct (sortDict (d.map (fun p =>
                if p.1 = old_order then (new_order, cmp)
                else if shiftRange old_order new_order p.1 then
                  (p.1 + factor, p.2)
                else p))))
        else
          .ok (setDict s ct (sortDict
            (removeFirst (d ++ [(new_order, cmp)]) (old_order, cmp))))
      else .error PyErr.valueErrorNotInList

/-! ### Concrete registry states for witnesses and counterexamples -/

def compA : Comp := { cls := ("AstrometryDelay"), ctype := ("DelayComponent"), iid := 0 }
def compB : Comp := { cls := ("DispersionDelay"), ctype := ("DelayComponent"), iid := 1 }
def compC : Comp := { cls := ("SolarShapiro"), ctype := ("DelayComponent"), iid := 2 }
def compA2 : Comp := { cls := ("AstrometryDelay"), ctype := ("DelayComponent"), iid := 5 }

/-- A registry with one delay component at order 1. -/
def sOne : TMState :=
  { component_types := [("DelayComponent"), ("PhaseComponent")]
    dicts := [(("DelayComponent"), [(1, compA)]), (("PhaseComponent"), [])] }

/-- A registry with two delay components at orders 1 and 2. -/
def sTwo : TMState :=
  { component_types := [("DelayComponent"), ("PhaseComponent")]
    dicts := [(("DelayComponent"), [(1, compA), (2, compB)]),
              (("PhaseComponent"), [])] }

/-- A registry with three delay components at orders 1, 2, 3. -/
def sThree : TMState :=
  { component_types := [("DelayComponent"), ("PhaseComponent")]
    dicts := [(("DelayComponent"), [(1, compA), (2, compB), (3, compC)]),
              (("PhaseComponent"), [])] }

end RegM

namespace RegM

/-! ### Association-list and registry helper lemmas -/

theorem alookup_mem {α β : Type} [DecidableEq α] :
    ∀ (l : List (α × β)) (k : α) (v : β), alookup l k = some v → (k, v) ∈ l := by
  intro l
  induction l with
  | nil => intro k v h; cases h
  | cons hd tl ih =>
    intro k v h
    obtain ⟨k', v'⟩ := hd
    simp only [alookup] at h
    split at h
    · next hk =>
        injection h with h2
        subst hk
        subst h2
        exact List.mem_cons_self _ _
    · next hk => exact List.mem_cons_of_mem _ (ih k v h)

theorem alookup_ainsert_self {α β : Type} [DecidableEq α] :
    ∀ (l : List (α × β)) (k : α) (v : β), alookup (ainsert l k v) k = some v := by
  intro l
  induction l with
  | nil => intro k v; simp [ainsert, alookup]
  | cons hd tl ih =>
    intro k v
    obtain ⟨k', v'⟩ := hd
    by_cases hk : k' = k
    · subst hk
      simp [ainsert, alookup]
    · simp only [ainsert, if_neg hk, alookup, if_neg hk]
      exact ih k v

theorem mem_removeFirst_of_ne {α : Type} [DecidableEq α] :
    ∀ (l : List α) (a b : α), a ≠ b → a ∈ l → a ∈ removeFirst l b := by
  intro l
  induction l with
  | nil => intro a b _ h; cases h
  | cons hd tl ih =>
    intro a b hne hmem
    by_cases hhd : hd = b
    · subst hhd
      simp only [removeFirst, if_pos rfl]
      rcases List.mem_cons.mp hmem with rfl | h
      · exact absurd rfl hne
      · exact h
    · simp only [removeFirst, if_neg hhd]
      rcases List.mem_cons.mp hmem with rfl | h
      · exact List.mem_cons_self _ _
      · exact List.mem_cons_of_mem _ (ih a b hne h)

theorem length_removeFirst_of_mem {α : Type} [DecidableEq α] :
    ∀ (l : List α) (b : α), b ∈ l →
      (removeFirst l b).length + 1 = l.length := by
  intro l
  induction l with
  | nil => intro b h; cases h
  | cons hd tl ih =>
    intro b hmem
    by_cases hhd : hd = b
    · simp [removeFirst, if_pos hhd]
    · have hb : b ∈ tl := by
        rcases List.mem_cons.mp hmem with rfl | h
        · exact absurd rfl hhd
        · exact h
      simp only [removeFirst, if_neg hhd, List.length_cons]
      rw [ih b hb]

theorem getLast?_of_all_eq {α : Type} :
    ∀ (l : List α) (a : α), l ≠ [] → (∀ x ∈ l, x = a) → l.getLast? = some a := by
  intro l
  induction l with
  | nil => intro a h _; exact absurd rfl h
  | cons hd tl ih =>
    intro a _ hall
    cases tl with
    | nil =>
      simp only [List.getLast?_singleton, Option.some.injEq]
      exact hall hd (List.mem_cons_self _ _)
    | cons hd2 tl2 =>
      rw [List.getLast?_cons_cons]
      exact ih a (List.cons_ne_nil _ _)
        (fun x hx => hall x (List.mem_cons_of_mem _ hx))

theorem keys_nodup_unique_value {α β : Type} [DecidableEq α] :
    ∀ (l : List (α × β)), (l.map (fun p => p.1)).Nodup →
      ∀ (k : α) (v w : β), (k, v) ∈ l → (k, w) ∈ l → v = w := by
  intro l
  induction l with
  | nil => intro _ k v w h; cases h
  | cons hd tl ih =>
    intro hnd k v w hv hw
    simp only [List.map_cons, List.nodup_cons] at hnd
    rcases List.mem_cons.mp hv with heq | hv' <;>
      rcases List.mem_cons.mp hw with heq' | hw'
    · exact congrArg Prod.snd (heq.trans heq'.symm)
    · exfalso
      apply hnd.1
      have hk : hd.1 = k := by rw [← heq]
      rw [hk]
      exact List.mem_map.mpr ⟨(k, w), hw', rfl⟩
    · exfalso
      apply hnd.1
      have hk : hd.1 = k := by rw [← heq']
      rw [hk]
      exact List.mem_map.mpr ⟨(k, v), hv', rfl⟩
    · exact ih hnd.2 k v w hv' hw'

theorem getDict_setDict (s : TMState) (ct : String) (d : CompDict) :
    getDict (setDict s ct d) ct = d := by
  simp [getDict, setDict, alookup_ainsert_self]

theorem mem_sortDict {x : Int × Comp} {d : CompDict} :
    x ∈ sortDict d ↔ x ∈ d := by
  simp [sortDict, List.mem_insertionSort]

theorem length_sortDict (d : CompDict) : (sortDict d).length = d.length :=
  (List.perm_insertionSort _ d).length_eq

/-- When the components view reaches `c` and the type dictionary holds `c`
exactly once, at key `old`, `get_component_instance` succeeds with that key
(lines 399-419). -/
theorem get_component_instance_ok (s : TMState) (c : Comp) (d : CompDict)
    (old : Int)
    (hview : c ∈ (componentsView s).map (fun p => p.2))
    (hd : alookup s.dicts c.ctype = some d)
    (hmem : (old, c) ∈ d)
    (honce : ∀ p ∈ d, p.2 = c → p = (old, c)) :
    get_component_instance s c = .ok (c, old, d, c.ctype) := by
  have hgd : getDict s c.ctype = d := by simp [getDict, hd]
  have hmemf : (old, c) ∈ d.filter (fun p => p.2 == c) :=
    List.mem_filter.mpr ⟨hmem, by simp⟩
  have hne : d.filter (fun p => p.2 == c) ≠ [] :=
    List.ne_nil_of_mem hmemf
  have hall : ∀ x ∈ d.filter (fun p => p.2 == c), x = (old, c) := by
    intro x hx
    have hx1 := List.mem_of_mem_filter hx
    have hx2 : x.2 = c := by
      have := List.of_mem_filter hx
      simpa using this
    exact honce x hx1 hx2
  have hlast : (d.filter (fun p => p.2 == c)).getLast? = some (old, c) :=
    getLast?_of_all_eq _ _ hne hall
  simp only [get_component_instance, if_pos hview, hgd, hlast]

/-- C5 (code bug): adding a component with an explicit order that collides
with an existing key crashes with TypeError at
`component_items[ii][0] += 1` (a tuple item assignment) instead of shifting
the colliding keys up by one as the `# PUSH the order back` comment intends.
The claim's first two clauses do hold: with order omitted the component is
appended at `orders[-1] + 1` (2 here), and an unused explicit order is
inserted directly. -/
theorem add_component_collision_crash :
    add_component sOne compB (some 1) false = .error PyErr.typeErrorTupleAssign ∧
    add_component sOne compB none false =
      .ok (setDict sOne ("DelayComponent") [(1, compA), (2, compB)]) ∧
    add_component sOne compB (some 7) false =
      .ok (setDict sOne ("DelayComponent") [(1, compA), (7, compB)]) := by
  refine ⟨rfl, rfl, rfl⟩

/-- C7: adding a component whose concrete class is already in its type
dictionary without `force` returns before touching anything, for any order
argument; with `force=True` (and order omitted) the duplicate-class
component is appended at `orders[-1] + 1`. -/
theorem add_component_duplicate_spec (s : TMState) (c : Comp)
    (hct : c.ctype ∈ s.component_types)
    (hdup : c.cls ∈ ((getDict s c.ctype).map (fun p => p.2)).map (fun x => x.cls)) :
    (∀ order : Option Int, add_component s c order false = .ok s) ∧
    add_component s c none true =
      .ok (setDict s c.ctype
        (getDict s c.ctype ++
          [(appendOrder ((getDict s c.ctype).map (fun p => p.1)), c)])) := by
  constructor
  · intro order
    simp only [add_component, if_pos hct]
    rw [if_pos ⟨hdup, by simp⟩]
  · simp only [add_component, if_pos hct]
    rw [if_neg (by simp)]

/-- Witness for C7: re-adding a second `AstrometryDelay` instance to `sOne`
is a no-op without force (even with a colliding explicit order) and appends
at order 2 with force. -/
theorem add_component_duplicate_spec_witness :
    add_component sOne compA2 (some 1) false = .ok sOne ∧
    add_component sOne compA2 none true =
      .ok (setDict sOne ("DelayComponent") [(1, compA), (2, compA2)]) := by
  have h := add_component_duplicate_spec sOne compA2 (by decide) (by decide)
  refine ⟨h.1 (some 1), ?_⟩
  rw [h.2]
  rfl

/-- C6 (counterexample): in the registry `{1: A, 2: B}`, moving `A` to the
occupied order 2 with `switch_order=False` yields `{1: B, 2: A}`: the
component `B`, whose key 2 is NOT strictly between the old position 1 and
the new position 2, nevertheless has its key shifted to 1 — the shifted
interval includes the new position itself, contradicting the claim that only
keys strictly between the two positions move. -/
theorem change_component_order_endpoint_cex :
    change_component_order sTwo compA 2 false =
      .ok (setDict sTwo ("DelayComponent") [(1, compB), (2, compA)]) ∧
    alookup [(1, compA), (2, compB)] (2 : Int) = some compB ∧
    alookup [(1, compB), (2, compA)] (1 : Int) = some compB ∧
    ¬ ((1 : Int) < 2 ∧ (2 : Int) < 2) := by
  refine ⟨rfl, by decide, by decide, by decide⟩

/-- C6 (amended): moving a (uniquely held) component from occupied order
`old` to occupied order `new`: with `switch_order=True` exactly the two keys
are exchanged — the moved component gets `new`, the component found at `new`
gets `old`, every entry of neither component is kept as is — and the
dictionary size is unchanged.  With `switch_order=False` the moved component
gets `new` and every other entry is shifted by one toward `old` exactly when
its key lies in the half-open interval from `old` (exclusive) to `new`
(INCLUSIVE — not merely the keys strictly between the two positions, which
is what the counterexample corrects), otherwise kept as is, again with the
size unchanged. -/
theorem change_component_order_spec (s : TMState) (c aff : Comp)
    (d : CompDict) (old_order new_order : Int)
    (hview : c ∈ (componentsView s).map (fun p => p.2))
    (hd : alookup s.dicts c.ctype = some d)
    (hnodup : (d.map (fun p => p.1)).Nodup)
    (hmem : (old_order, c) ∈ d)
    (honce : ∀ p ∈ d, p.2 = c → p = (old_order, c))
    (haff : alookup d new_order = some aff)
    (hane : aff ≠ c) :
    (∃ s₁, change_component_order s c new_order true = .ok s₁ ∧
      (new_order, c) ∈ getDict s₁ c.ctype ∧
      (old_order, aff) ∈ getDict s₁ c.ctype ∧
      (∀ p ∈ d, p.2 ≠ c → p.2 ≠ aff → p ∈ getDict s₁ c.ctype) ∧
      (getDict s₁ c.ctype).length = d.length) ∧
    (∃ s₂, change_component_order s c new_order false = .ok s₂ ∧
      (new_order, c) ∈ getDict s₂ c.ctype ∧
      (∀ p ∈ d, p.2 ≠ c →
        (if shiftRange old_order new_order p.1 then
          (p.1 + (if new_order > old_order then (-1 : Int) else 1), p.2) ∈
            getDict s₂ c.ctype
        else p ∈ getDict s₂ c.ctype)) ∧
      (getDict s₂ c.ctype).length = d.length) := by
  have hgci := get_component_instance_ok s c d old_order hview hd hmem honce
  have haffmem : (new_order, aff) ∈ d := alookup_mem d new_order aff haff
  have hnewold : new_order ≠ old_order := by
    intro heq
    subst heq
    exact hane (keys_nodup_unique_value d hnodup new_order aff c haffmem hmem)
  have hnewmem : new_order ∈ d.map (fun p => p.1) :=
    List.mem_map.mpr ⟨(new_order, aff), haffmem, rfl⟩
  have hkey_old : ∀ p ∈ d, p.1 = old_order → p = (old_order, c) := by
    intro p hp hk
    obtain ⟨pk, pv⟩ := p
    simp only at hk
    subst hk
    have := keys_nodup_unique_value d hnodup pk pv c hp hmem
    rw [this]
  constructor
  · -- switch_order = true
    have heq : change_component_order s c new_order true =
        .ok (setDict s c.ctype (sortDict
          ((removeFirst ((removeFirst d (new_order, aff)) ++
              [(new_order, c)]) (old_order, c)) ++ [(old_order, aff)]))) := by
      simp only [change_component_order, hgci, if_pos hmem, if_pos hnewmem,
        haff, if_pos]
    refine ⟨_, heq, ?_, ?_, ?_, ?_⟩
    · rw [getDict_setDict, mem_sortDict]
      apply List.mem_append_left
      apply mem_removeFirst_of_ne
      · intro h
        exact hnewold (congrArg Prod.fst h)
      · exact List.mem_append_right _ (List.mem_singleton.mpr rfl)
    · rw [getDict_setDict, mem_sortDict]
      exact List.mem_append_right _ (List.mem_singleton.mpr rfl)
    · intro p hp hpc hpa
      rw [getDict_setDict, mem_sortDict]
      apply List.mem_append_left
      apply mem_removeFirst_of_ne
      · intro h
        exact hpc (congrArg Prod.snd h)
      · apply List.mem_append_left
        apply mem_removeFirst_of_ne
        · intro h
          exact hpa (congrArg Prod.snd h)
        · exact hp
    · rw [getDict_setDict, length_sortDict]
      have h1 : (removeFirst d (new_order, aff)).length + 1 = d.length :=
        length_removeFirst_of_mem d _ haffmem
      have hoc : (old_order, c) ∈
          removeFirst d (new_order, aff) ++ [(new_order, c)] := by
        apply List.mem_append_left
        apply mem_removeFirst_of_ne
        · intro h
          exact hane (congrArg Prod.snd h).symm
        · exact hmem
      have h2 := length_removeFirst_of_mem _ _ hoc
      simp only [List.length_append, List.length_cons, List.length_nil] at h2 ⊢
      omega
  · -- switch_order = false
    have heq : change_component_order s c new_order false =
        .ok (setDict s c.ctype (sortDict (d.map (fun p =>
          if p.1 = old_order then (new_order, c)
          else if shiftRange old_order new_order p.1 then
            (p.1 + (if new_order > old_order then (-1 : Int) else 1), p.2)
          else p)))) := by
      simp only [change_component_order, hgci, if_pos hmem, if_pos hnewmem,
        haff]
      rfl
    refine ⟨_, heq, ?_, ?_, ?_⟩
    · rw [getDict_setDict, mem_sortDict]
      refine List.mem_map.mpr ⟨(old_order, c), hmem, ?_⟩
      simp
    · intro p hp hpc
      have hpold : ¬ (p.1 = old_order) := by
        intro h
        exact hpc (congrArg Prod.snd (hkey_old p hp h))
      by_cases hs : shiftRange old_order new_order p.1
      · rw [if_pos hs, getDict_setDict, mem_sortDict]
        refine List.mem_map.mpr ⟨p, hp, ?_⟩
        rw [if_neg hpold, if_pos hs]
      · rw [if_neg hs, getDict_setDict, mem_sortDict]
        refine List.mem_map.mpr ⟨p, hp, ?_⟩
        rw [if_neg hpold, if_neg hs]
    · rw [getDict_setDict, length_sortDict, List.length_map]

/-- Witness for C6 (amended): in the registry `{1: A, 2: B, 3: C}`, moving
`A` to the occupied order 3 with `switch_order=True` swaps A and C; with
`switch_order=False` it shifts B and C down by one. -/
theorem change_component_order_spec_witness :
    (∃ s₁, change_component_order sThree compA 3 true = .ok s₁ ∧
      ((3 : Int), compA) ∈ getDict s₁ compA.ctype ∧
      ((1 : Int), compC) ∈ getDict s₁ compA.ctype ∧
      (∀ p ∈ [((1 : Int), compA), (2, compB), (3, compC)], p.2 ≠ compA →
        p.2 ≠ compC → p ∈ getDict s₁ compA.ctype) ∧
      (getDict s₁ compA.ctype).length =
        ([((1 : Int), compA), (2, compB), (3, compC)] : CompDict).length) ∧
    (∃ s₂, change_component_order sThree compA 3 false = .ok s₂ ∧
      ((3 : Int), compA) ∈ getDict s₂ compA.ctype ∧
      (∀ p ∈ [((1 : Int), compA), (2, compB), (3, compC)], p.2 ≠ compA →
        (if shiftRange 1 3 p.1 then
          (p.1 + (if (3 : Int) > 1 then (-1 : Int) else 1), p.2) ∈
            getDict s₂ compA.ctype
        else p ∈ getDict s₂ compA.ctype)) ∧
      (getDict s₂ compA.ctype).length =
        ([((1 : Int), compA), (2, compB), (3, compC)] : CompDict).length) := by
  exact change_component_order_spec sThree compA compC
    [(1, compA), (2, compB), (3, compC)] 1 3
    (by decide) (by decide) (by decide) (by decide) (by decide) (by decide)
    (by decide)

/-! ### The class-keyed aggregate view (claim C10)

`flatComps` lists every registered component instance in the iteration order
of the `components` property (component types in order, then dictionary
order); `buildDict` is the plain-dictionary accumulation the property
performs.  These two are proof-side restatements of `componentsView`,
related to it by `componentsView_eq`. -/

def flatComps (s : TMState) : List Comp :=
  (s.component_types.map (fun ct => (getDict s ct).map (fun p => p.2))).flatten

def buildDict (cs : List Comp) : List (String × Comp) :=
  cs.foldl (fun a cp => ainsert a cp.cls cp) []

theorem componentsView_eq (s : TMState) :
    componentsView s = buildDict (flatComps s) := by
  simp only [componentsView, buildDict, flatComps, List.foldl_flatten,
    List.foldl_map]

theorem ainsert_cons_self {α β : Type} [DecidableEq α] (k : α) (v v' : β)
    (tl : List (α × β)) : ainsert ((k, v') :: tl) k v = (k, v) :: tl := by
  simp [ainsert]

theorem ainsert_cons_ne {α β : Type} [DecidableEq α] {k k' : α}
    (h : ¬ k' = k) (v v' : β) (tl : List (α × β)) :
    ainsert ((k', v') :: tl) k v = (k', v') :: ainsert tl k v := by
  simp [ainsert, h]

theorem alookup_cons_self {α β : Type} [DecidableEq α] (k : α) (v : β)
    (tl : List (α × β)) : alookup ((k, v) :: tl) k = some v := by
  simp [alookup]

theorem alookup_cons_ne {α β : Type} [DecidableEq α] {k q : α}
    (h : ¬ k = q) (v : β) (tl : List (α × β)) :
    alookup ((k, v) :: tl) q = alookup tl q := by
  simp [alookup, h]

theorem alookup_ainsert {α β : Type} [DecidableEq α] :
    ∀ (l : List (α × β)) (k q : α) (v : β),
      alookup (ainsert l k v) q = if k = q then some v else alookup l q := by
  intro l
  induction l with
  | nil =>
    intro k q v
    by_cases hq : k = q
    · subst hq; simp [ainsert, alookup]
    · simp [ainsert, alookup, hq]
  | cons hd tl ih =>
    intro k q v
    obtain ⟨k', v'⟩ := hd
    by_cases hk : k' = k
    · subst hk
      rw [ainsert_cons_self]
      by_cases hq : k' = q
      · subst hq
        rw [alookup_cons_self, if_pos rfl]
      · rw [alookup_cons_ne hq, if_neg (fun h => hq h), alookup_cons_ne hq]
    · rw [ainsert_cons_ne hk]
      by_cases hq : k' = q
      · subst hq
        rw [alookup_cons_self, alookup_cons_self,
          if_neg (fun h => hk h.symm)]
      · rw [alookup_cons_ne hq, alookup_cons_ne hq, ih]

theorem mem_keys_ainsert {α β : Type} [DecidableEq α] :
    ∀ (l : List (α × β)) (k q : α) (v : β),
      q ∈ (ainsert l k v).map (fun p => p.1) →
      q = k ∨ q ∈ l.map (fun p => p.1) := by
  intro l
  induction l with
  | nil => intro k q v h; simpa [ainsert] using h
  | cons hd tl ih =>
    intro k q v h
    obtain ⟨k', v'⟩ := hd
    by_cases hk : k' = k
    · subst hk
      rw [ainsert_cons_self] at h
      simp only [List.map_cons, List.mem_cons] at h
      rcases h with rfl | h
      · exact Or.inl rfl
      · exact Or.inr (by simp [h])
    · rw [ainsert_cons_ne hk] at h
      simp only [List.map_cons, List.mem_cons] at h
      rcases h with rfl | h
      · exact Or.inr (by simp)
      · rcases ih k q v h with h1 | h1
        · exact Or.inl h1
        · exact Or.inr (by simp [h1])

theorem ainsert_keys_nodup {α β : Type} [DecidableEq α] :
    ∀ (l : List (α × β)) (k : α) (v : β),
      (l.map (fun p => p.1)).Nodup →
      ((ainsert l k v).map (fun p => p.1)).Nodup := by
  intro l
  induction l with
  | nil => intro k v _; simp [ainsert]
  | cons hd tl ih =>
    intro k v hnd
    obtain ⟨k', v'⟩ := hd
    simp only [List.map_cons, List.nodup_cons] at hnd
    by_cases hk : k' = k
    · subst hk
      rw [ainsert_cons_self]
      simp only [List.map_cons, List.nodup_cons]
      exact hnd
    · rw [ainsert_cons_ne hk]
      simp only [List.map_cons, List.nodup_cons]
      refine ⟨?_, ih k v hnd.2⟩
      intro hmem
      rcases mem_keys_ainsert tl k k' v hmem with h1 | h1
      · exact hk h1
      · exact hnd.1 h1

theorem buildDict_keys_nodup (cs : List Comp) :
    ((buildDict cs).map (fun p => p.1)).Nodup := by
  suffices h : ∀ (acc : List (String × Comp)), (acc.map (fun p => p.1)).Nodup →
      ((cs.foldl (fun a cp => ainsert a cp.cls cp) acc).map
        (fun p => p.1)).Nodup by
    exact h [] (by simp)
  induction cs with
  | nil => intro acc hacc; simpa using hacc
  | cons cp rest ih =>
    intro acc hacc
    exact ih _ (ainsert_keys_nodup acc cp.cls cp hacc)

theorem componentsView_keys_nodup (s : TMState) :
    ((componentsView s).map (fun p => p.1)).Nodup := by
  rw [componentsView_eq]
  exact buildDict_keys_nodup _

theorem getLast?_cons_getD {α : Type} :
    ∀ (l : List α) (a : α), (a :: l).getLast? = some (l.getLast?.getD a) := by
  intro l
  induction l with
  | nil => intro a; rfl
  | cons b t ih =>
    intro a
    rw [List.getLast?_cons_cons, ih b]
    simp [ih b]

theorem alookup_foldl_ainsert (k : String) :
    ∀ (cs : List Comp) (acc : List (String × Comp)),
      alookup (cs.foldl (fun a cp => ainsert a cp.cls cp) acc) k =
        ((cs.filter (fun cp => cp.cls == k)).getLast?).or (alookup acc k) := by
  intro cs
  induction cs with
  | nil => intro acc; simp
  | cons cp rest ih =>
    intro acc
    simp only [List.foldl_cons, List.filter_cons]
    rw [ih]
    by_cases hc : cp.cls = k
    · rw [if_pos (by simpa using hc), alookup_ainsert, if_pos hc,
        getLast?_cons_getD]
      cases hfr : (rest.filter (fun x => x.cls == k)).getLast? with
      | none => simp
      | some q => simp
    · rw [if_neg (by simpa using hc), alookup_ainsert, if_neg hc]

theorem alookup_componentsView (s : TMState) (k : String) :
    alookup (componentsView s) k =
      ((flatComps s).filter (fun cp => cp.cls == k)).getLast? := by
  rw [componentsView_eq, buildDict, alookup_foldl_ainsert]
  simp [alookup]

theorem mem_of_getLast? {α : Type} {l : List α} {a : α}
    (h : l.getLast? = some a) : a ∈ l := by
  rcases List.mem_getLast?_eq_getLast (l := l) (x := a)
      (by simp [Option.mem_def, h]) with ⟨hne, heq⟩
  rw [heq]
  exact List.getLast_mem hne

theorem alookup_of_mem_values {α β : Type} [DecidableEq α] :
    ∀ (l : List (α × β)), (l.map (fun p => p.1)).Nodup →
      ∀ v ∈ l.map (fun p => p.2), ∃ k, alookup l k = some v := by
  intro l
  induction l with
  | nil => intro _ v hv; simp at hv
  | cons hd tl ih =>
    intro hnd v hv
    obtain ⟨k', v'⟩ := hd
    simp only [List.map_cons, List.nodup_cons] at hnd
    rcases List.mem_cons.mp hv with heq | hv'
    · exact ⟨k', by simp [alookup, heq]⟩
    · obtain ⟨k, hk⟩ := ih hnd.2 v hv'
      refine ⟨k, ?_⟩
      have hkne : k' ≠ k := by
        intro h
        subst h
        exact hnd.1 (List.mem_map.mpr ⟨(k', v), alookup_mem tl k' v hk, rfl⟩)
      simpa [alookup, if_neg hkne] using hk

theorem getDict_setDict_ne (s : TMState) (ct ct' : String) (d : CompDict)
    (h : ct' ≠ ct) : getDict (setDict s ct d) ct' = getDict s ct' := by
  have h2 : ct ≠ ct' := fun hh => h hh.symm
  simp [getDict, setDict, alookup_ainsert, h2]

/-- Replacing one component type's dictionary replaces exactly its segment of
the flattened component iteration. -/
theorem flatComps_decomp (s : TMState) (ct : String) (d newd : CompDict)
    (tA tB : List String)
    (hsplit : s.component_types = tA ++ ct :: tB)
    (hA : ct ∉ tA) (hB : ct ∉ tB)
    (hd : alookup s.dicts ct = some d) :
    flatComps s =
      (tA.map (fun x => (getDict s x).map (fun p => p.2))).flatten ++
        (d.map (fun p => p.2) ++
          (tB.map (fun x => (getDict s x).map (fun p => p.2))).flatten) ∧
    flatComps (setDict s ct newd) =
      (tA.map (fun x => (getDict s x).map (fun p => p.2))).flatten ++
        (newd.map (fun p => p.2) ++
          (tB.map (fun x => (getDict s x).map (fun p => p.2))).flatten) := by
  have hgd : getDict s ct = d := by simp [getDict, hd]
  have hcts' : (setDict s ct newd).component_types = s.component_types := rfl
  constructor
  · rw [flatComps, hsplit]
    simp only [List.map_append, List.map_cons, List.flatten_append,
      List.flatten_cons, hgd]
  · rw [flatComps, hcts', hsplit]
    simp only [List.map_append, List.map_cons, List.flatten_append,
      List.flatten_cons]
    rw [getDict_setDict]
    congr 1
    · congr 1
      apply List.map_congr_left
      intro x hx
      rw [getDict_setDict_ne s ct x newd (fun h => hA (h ▸ hx))]
    · congr 1
      congr 1
      apply List.map_congr_left
      intro x hx
      rw [getDict_setDict_ne s ct x newd (fun h => hB (h ▸ hx))]

/-- C10: the aggregate `components` view is keyed by concrete class name, so
its keys are always duplicate-free (at most one component per class is
visible).  Force-adding a second instance `c` of a class already held (only)
by `c'` leaves both instances in the ordered type dictionary, but the view
maps the class name to `c` alone: `c'` is no longer among the view's values,
`get_component_instance` (and hence `remove_component`) on `c'` raises
AttributeError, while `c` is found at the appended order key. -/
theorem components_class_shadowing (s : TMState) (c c' : Comp)
    (d : CompDict) (kc' : Int)
    (hct : c.ctype ∈ s.component_types)
    (hctnd : s.component_types.Nodup)
    (hd : alookup s.dicts c.ctype = some d)
    (hc' : (kc', c') ∈ d)
    (hcls : c'.cls = c.cls)
    (hne : c' ≠ c)
    (honly : (flatComps s).filter (fun cp => cp.cls == c.cls) = [c']) :
    ((componentsView s).map (fun p => p.1)).Nodup ∧
    ∃ s', add_component s c none true = .ok s' ∧
      alookup s'.dicts c.ctype =
        some (d ++ [(appendOrder (d.map (fun p => p.1)), c)]) ∧
      (kc', c') ∈ getDict s' c.ctype ∧
      ((componentsView s').map (fun p => p.1)).Nodup ∧
      alookup (componentsView s') c.cls = some c ∧
      c' ∉ (componentsView s').map (fun p => p.2) ∧
      get_component_instance s' c' = .error PyErr.componentNotFound ∧
      remove_component s' c' = .error PyErr.componentNotFound ∧
      get_component_instance s' c =
        .ok (c, appendOrder (d.map (fun p => p.1)),
          d ++ [(appendOrder (d.map (fun p => p.1)), c)], c.ctype) := by
  refine ⟨componentsView_keys_nodup s, ?_⟩
  have hgd : getDict s c.ctype = d := by simp [getDict, hd]
  -- the force-add appends (appendOrder, c) to the type dictionary
  have hadd : add_component s c none true =
      .ok (setDict s c.ctype
        (d ++ [(appendOrder (d.map (fun p => p.1)), c)])) := by
    simp only [add_component, if_pos hct]
    rw [if_neg (by simp)]
    rw [hgd]
  refine ⟨_, hadd, ?_⟩
  have hd' : alookup (setDict s c.ctype
      (d ++ [(appendOrder (d.map (fun p => p.1)), c)])).dicts c.ctype =
      some (d ++ [(appendOrder (d.map (fun p => p.1)), c)]) := by
    simp [setDict, alookup_ainsert_self]
  refine ⟨hd', ?_⟩
  have hgd' : getDict (setDict s c.ctype
      (d ++ [(appendOrder (d.map (fun p => p.1)), c)])) c.ctype =
      d ++ [(appendOrder (d.map (fun p => p.1)), c)] := getDict_setDict _ _ _
  refine ⟨by rw [hgd']; exact List.mem_append_left _ hc', ?_⟩
  refine ⟨componentsView_keys_nodup _, ?_⟩
  -- decompose the flattened component iteration around c.ctype
  obtain ⟨tA, tB, hsplit⟩ := List.append_of_mem hct
  have hnd2 : tA.Nodup ∧ (c.ctype :: tB).Nodup ∧ tA.Disjoint (c.ctype :: tB) := by
    rw [hsplit] at hctnd
    exact List.nodup_append.mp hctnd
  have hA : c.ctype ∉ tA := fun h => hnd2.2.2 h (List.mem_cons_self _ _)
  have hB : c.ctype ∉ tB := (List.nodup_cons.mp hnd2.2.1).1
  obtain ⟨hflat, hflat'⟩ := flatComps_decomp s c.ctype d
    (d ++ [(appendOrder (d.map (fun p => p.1)), c)]) tA tB hsplit hA hB hd
  -- the old flat iteration holds exactly one component of this class: c'
  have hc'vals : c' ∈ d.map (fun p => p.2) :=
    List.mem_map.mpr ⟨(kc', c'), hc', rfl⟩
  have hc'f : c' ∈ (d.map (fun p => p.2)).filter (fun cp => cp.cls == c.cls) :=
    List.mem_filter.mpr ⟨hc'vals, by simp [hcls]⟩
  have hsplit3 :
      ((tA.map (fun x => (getDict s x).map (fun p => p.2))).flatten.filter
          (fun cp => cp.cls == c.cls)) ++
        (((d.map (fun p => p.2)).filter (fun cp => cp.cls == c.cls)) ++
          ((tB.map (fun x => (getDict s x).map (fun p => p.2))).flatten.filter
            (fun cp => cp.cls == c.cls))) = [c'] := by
    rw [hflat] at honly
    simpa [List.filter_append] using honly
  have hlen : ((tA.map (fun x => (getDict s x).map (fun p => p.2))).flatten.filter
          (fun cp => cp.cls == c.cls)).length +
        ((((d.map (fun p => p.2)).filter (fun cp => cp.cls == c.cls)).length +
          ((tB.map (fun x => (getDict s x).map (fun p => p.2))).flatten.filter
            (fun cp => cp.cls == c.cls)).length)) = 1 := by
    have := congrArg List.length hsplit3
    simpa using this
  have hmidpos : 0 <
      ((d.map (fun p => p.2)).filter (fun cp => cp.cls == c.cls)).length :=
    List.length_pos.mpr (List.ne_nil_of_mem hc'f)
  have hJA : (tA.map (fun x => (getDict s x).map (fun p => p.2))).flatten.filter
      (fun cp => cp.cls == c.cls) = [] := List.length_eq_zero.mp (by omega)
  have hJB : (tB.map (fun x => (getDict s x).map (fun p => p.2))).flatten.filter
      (fun cp => cp.cls == c.cls) = [] := List.length_eq_zero.mp (by omega)
  have hmid : (d.map (fun p => p.2)).filter (fun cp => cp.cls == c.cls) = [c'] := by
    rw [hJA, hJB] at hsplit3
    simpa using hsplit3
  -- the new flat iteration filtered to this class is [c', c]
  have hfilter' : (flatComps (setDict s c.ctype
      (d ++ [(appendOrder (d.map (fun p => p.1)), c)]))).filter
        (fun cp => cp.cls == c.cls) = [c', c] := by
    rw [hflat']
    simp only [List.filter_append, hJA, hJB, List.map_append, List.map_cons,
      List.map_nil, hmid]
    simp
  have hlook : alookup (componentsView (setDict s c.ctype
      (d ++ [(appendOrder (d.map (fun p => p.1)), c)]))) c.cls = some c := by
    rw [alookup_componentsView, hfilter']
    rfl
  refine ⟨hlook, ?_⟩
  have hnotmem : c' ∉ (componentsView (setDict s c.ctype
      (d ++ [(appendOrder (d.map (fun p => p.1)), c)]))).map (fun p => p.2) := by
    intro hmm
    obtain ⟨k0, hk0⟩ := alookup_of_mem_values _ (componentsView_keys_nodup _) c' hmm
    rw [alookup_componentsView] at hk0
    have hms := mem_of_getLast? hk0
    have hk0cls : c'.cls = k0 := by
      have := List.of_mem_filter hms
      simpa using this
    rw [← hk0cls, hcls] at hk0
    rw [hfilter'] at hk0
    have : c = c' := by
      simpa using hk0
    exact hne this.symm
  refine ⟨hnotmem, ?_⟩
  have hgcierr : get_component_instance (setDict s c.ctype
      (d ++ [(appendOrder (d.map (fun p => p.1)), c)])) c' =
      .error PyErr.componentNotFound := by
    simp only [get_component_instance, if_neg hnotmem]
  refine ⟨hgcierr, ?_⟩
  refine ⟨by simp only [remove_component, hgcierr], ?_⟩
  -- the new instance is reachable at the appended order key
  have hview' : c ∈ (componentsView (setDict s c.ctype
      (d ++ [(appendOrder (d.map (fun p => p.1)), c)]))).map (fun p => p.2) :=
    List.mem_map.mpr ⟨(c.cls, c), alookup_mem _ _ _ hlook, rfl⟩
  have honce' : ∀ p ∈ d ++ [(appendOrder (d.map (fun p => p.1)), c)],
      p.2 = c → p = (appendOrder (d.map (fun p => p.1)), c) := by
    intro p hp hpc
    rcases List.mem_append.mp hp with hpd | hpl
    · exfalso
      have hcf : c ∈ (d.map (fun p => p.2)).filter (fun cp => cp.cls == c.cls) :=
        List.mem_filter.mpr ⟨List.mem_map.mpr ⟨p, hpd, hpc⟩, by simp⟩
      rw [hmid] at hcf
      have : c = c' := by simpa using hcf
      exact hne this.symm
    · have := List.mem_singleton.mp hpl
      rw [this]
  exact get_component_instance_ok _ c _ _ hview' hd'
    (List.mem_append_right _ (List.mem_singleton.mpr rfl)) honce'

/-- Witness for C10: force-adding a second `AstrometryDelay` instance to
`sOne` keeps both instances in the delay dictionary, but only the new one is
visible through the class-keyed view or reachable by
`get_component_instance` / `remove_component`. -/
theorem components_class_shadowing_witness :
    ((componentsView sOne).map (fun p => p.1)).Nodup ∧
    ∃ s', add_component sOne compA2 none true = .ok s' ∧
      alookup s'.dicts compA2.ctype = some [(1, compA), (2, compA2)] ∧
      ((1 : Int), compA) ∈ getDict s' compA2.ctype ∧
      ((componentsView s').map (fun p => p.1)).Nodup ∧
      alookup (componentsView s') compA2.cls = some compA2 ∧
      compA ∉ (componentsView s').map (fun p => p.2) ∧
      get_component_instance s' compA = .error PyErr.componentNotFound ∧
      remove_component s' compA = .error PyErr.componentNotFound ∧
      get_component_instance s' compA2 =
        .ok (compA2, 2, [(1, compA), (2, compA2)], compA2.ctype) := by
  exact components_class_shadowing sOne compA2 compA [(1, compA)] 1
    (by decide) (by decide) (by decide) (by decide) (by decide) (by decide)
    (by decide)

end RegM

namespace ParM

/-!
### Parameter namespace (`Component.add_param`, `Component.remove_param`,
`TimingModel.remove_param`, `TimingModel.get_params_mapping`)

Parameter objects carry their name and aliases; a component's parameter
attributes (`setattr(self, param.name, param)`) are an association list, as
is the model's top-level attribute table.  The model's `components` values
are kept as a class-named list (one entry per class, as the class-keyed view
guarantees).
-/

structure PParam where
  name : String
  aliases : List String
deriving DecidableEq, Repr

/-- Slice of a `Component` instance for the parameter-namespace methods
(lines 914-919). -/
structure Component where
  cls : String
  attrs : List (String × PParam)
  params : List String
  component_special_params : List String
deriving DecidableEq, Repr

/-- Slice of `TimingModel` for the parameter-namespace methods. -/
structure TimingModelP where
  top_level_params : List String
  topAttrs : List (String × PParam)
  comps : List Component
deriving DecidableEq, Repr

/-- `Component.add_param` (lines 936-945): `setattr(self, param.name, param)`
(overwriting a same-named attribute) and `self.params += [param.name]` —
unconditionally, with no collision check of any kind. -/
def Component.add_param (c : Component) (param : PParam) : Component :=
  { c with
    attrs := ainsert c.attrs param.name param
    params := c.params ++ [param.name] }

/-- `self.component_special_params.remove(pn)` for each name in turn
(lines 952-953); `list.remove` raises ValueError when the name is absent. -/
def removeAllOrErr : List String → List String → Option PyErr × List String
  | sp, [] => (none, sp)
  | sp, n :: rest =>
      if n ∈ sp then removeAllOrErr (removeFirst sp n) rest
      else (some PyErr.valueErrorNotInList, sp)

/-- `Component.remove_param` (lines 947-954): `self.params.remove(param)`
(ValueError if absent), then the parameter attribute is read back to collect
its aliases (the `_parent` fallback of `Component.__getattr__` is not taken
here: the model calls this only for parameters its mapping attributes to the
component, whose attribute is set locally), the special-parameter list is
purged of the name and every alias, and the attribute is deleted.  The
returned state reflects the mutations performed before any raise. -/
def Component.remove_param (c : Component) (param : String) :
    Option PyErr × Component :=
  if param ∈ c.params then
    let c1 : Component := { c with params := removeFirst c.params param }
    match alookup c1.attrs param with
    | none => (some PyErr.attrNotFound, c1)
    | some par =>
      if param ∈ c1.component_special_params then
        match removeAllOrErr c1.component_special_params (param :: par.aliases) with
        | (some e, sp) =>
            (some e, { c1 with component_special_params := sp })
        | (none, sp) =>
            (none, { c1 with
              component_special_params := sp
              attrs := aerase c1.attrs param })
      else (none, { c1 with attrs := aerase c1.attrs param })
  else (some PyErr.valueErrorNotInList, c)

/-- `TimingModel.get_params_mapping` (lines 461-472): top-level parameters
map to "timing_model", then every component's parameters map to its class
name. -/
def TimingModelP.get_params_mapping (m : TimingModelP) : List (String × String) :=
  m.comps.foldl
    (fun acc cp => cp.params.foldl (fun a pp => ainsert a pp cp.cls) acc)
    (m.top_level_params.foldl (fun acc p => ainsert acc p ("timing_model")) [])

/-- `self.components[owner]` on the class-named component list. -/
def findComp (comps : List Component) (cls : String) : Option Component :=
  comps.find? (fun cp => cp.cls == cls)

def replaceComp (comps : List Component) (cls : String) (newc : Component) :
    List Component :=
  comps.map (fun cp => if cp.cls = cls then newc else cp)

/-- `TimingModel.remove_param` (lines 443-459).  A name that is not a key of
`get_params_mapping` — keys are PRIMARY names only, so aliases are not
resolved — raises AttributeError before anything is touched (the error
message construction `param.name` on a `str` itself raises AttributeError).
A top-level name is deleted from the model; otherwise the owning component's
`remove_param` runs. -/
def TimingModelP.remove_param (m : TimingModelP) (param : String) :
    Option PyErr × TimingModelP :=
  match alookup m.get_params_mapping param with
  | none => (some PyErr.cannotFindParam, m)
  | some owner =>
    if owner = ("timing_model") then
      (none, { m with
        topAttrs := aerase m.topAttrs param
        top_level_params := removeFirst m.top_level_params param })
    else
      match findComp m.comps owner with
      | none => (some PyErr.keyErrorMissing, m)
      | some cp =>
        match cp.remove_param param with
        | (some e, cp') =>
            (some e, { m with comps := replaceComp m.comps owner cp' })
        | (none, cp') =>
            (none, { m with comps := replaceComp m.comps owner cp' })

/-! ### Concrete models for the C8 / C9 theorems -/

def pF0 : PParam := { name := ("F0"), aliases := [("F")] }

def pPSR : PParam := { name := ("PSR"), aliases := [("PSRJ"), ("PSRB")] }

def spindown : Component :=
  { cls := ("Spindown")
    attrs := [(("F0"), pF0)]
    params := [("F0")]
    component_special_params := [] }

def mP : TimingModelP :=
  { top_level_params := [("PSR")]
    topAttrs := [(("PSR"), pPSR)]
    comps := [spindown] }

def pA : PParam := { name := ("A"), aliases := [] }

def pA2 : PParam := { name := ("A"), aliases := [("AA")] }

def cWithA : Component :=
  { cls := ("X")
    attrs := [(("A"), pA)]
    params := [("A")]
    component_special_params := [] }

end ParM

namespace ParM

/-- C8 (counterexample): "F" is an alias of the existing parameter "F0"
(owned by the Spindown component of `mP`), yet `remove_param "F"` raises
AttributeError and leaves the model unchanged — the mapping keys are primary
names only, so alias resolution never happens, contradicting the claim that
removal via an alias succeeds. -/
theorem remove_param_alias_cex :
    mP.remove_param ("F") = (some PyErr.cannotFindParam, mP) ∧
    ("F") ∈ pF0.aliases ∧
    alookup mP.get_params_mapping ("F0") = some ("Spindown") ∧
    alookup mP.get_params_mapping ("F") = none := by
  refine ⟨rfl, by decide, by decide, by decide⟩

/-- C8 (amended): `remove_param` with a name that is not a key of the
parameter mapping — unknown names AND names known only as aliases — raises
AttributeError (the message construction itself also raises AttributeError,
since the code calls `.name` on the string) and leaves the model unchanged;
with a primary name owned by a component it removes that parameter from the
owned list and deletes its attribute. -/
theorem remove_param_spec (m : TimingModelP) (p : String) :
    (alookup m.get_params_mapping p = none →
      m.remove_param p = (some PyErr.cannotFindParam, m)) ∧
    (∀ owner cp par,
      alookup m.get_params_mapping p = some owner →
      ¬ owner = ("timing_model") →
      findComp m.comps owner = some cp →
      p ∈ cp.params →
      alookup cp.attrs p = some par →
      p ∉ cp.component_special_params →
      m.remove_param p =
        (none,
          { m with
            comps := replaceComp m.comps owner
              { cp with
                params := removeFirst cp.params p
                attrs := aerase cp.attrs p } })) := by
  constructor
  · intro hnone
    simp only [TimingModelP.remove_param, hnone]
  · intro owner cp par howner hotm hfind hpmem hattr hnsp
    have hcomp : cp.remove_param p =
        (none, { cp with
          params := removeFirst cp.params p
          attrs := aerase cp.attrs p }) := by
      simp only [Component.remove_param, if_pos hpmem, hattr, if_neg hnsp]
    simp only [TimingModelP.remove_param, howner, if_neg hotm, hfind, hcomp]

/-- Witness for C8 (amended): on `mP`, removing the unknown name "GAMMA"
errors and leaves the model as it was; removing the primary name "F0"
removes the parameter from the Spindown component. -/
theorem remove_param_spec_witness :
    mP.remove_param ("GAMMA") = (some PyErr.cannotFindParam, mP) ∧
    mP.remove_param ("F0") =
      (none,
        { mP with
          comps := replaceComp mP.comps ("Spindown")
            { spindown with
              params := removeFirst spindown.params ("F0")
              attrs := aerase spindown.attrs ("F0") } }) := by
  constructor
  · exact (remove_param_spec mP ("GAMMA")).1 (by decide)
  · exact (remove_param_spec mP ("F0")).2 ("Spindown") spindown pF0
      (by decide) (by decide) (by decide) (by decide) (by decide) (by decide)

/-- C9 (counterexample): `cWithA` already owns a parameter named "A", yet
`add_param` of a second parameter with the same name raises nothing (its
type does not even admit failure), changes the component, and leaves the
owned-name list with a duplicate — so the name/alias namespace is not kept
pairwise disjoint, contradicting the claimed DuplicateParameterError. -/
theorem add_param_no_collision_check_cex :
    (cWithA.add_param pA2).params = [("A"), ("A")] ∧
    ¬ (cWithA.add_param pA2).params.Nodup ∧
    cWithA.add_param pA2 ≠ cWithA := by
  refine ⟨rfl, by decide, by decide⟩

/-- C9 (amended): `Component.add_param` performs no collision check at all:
it unconditionally overwrites the same-named attribute (leaving all other
attributes untouched) and appends the name to the owned list — duplicate
names and alias collisions are silently admitted. -/
theorem add_param_spec (c : Component) (p : PParam) :
    (c.add_param p).params = c.params ++ [p.name] ∧
    alookup (c.add_param p).attrs p.name = some p ∧
    (∀ q, ¬ p.name = q →
      alookup (c.add_param p).attrs q = alookup c.attrs q) ∧
    (c.add_param p).component_special_params = c.component_special_params := by
  refine ⟨rfl, ?_, ?_, rfl⟩
  · simp only [Component.add_param]
    exact RegM.alookup_ainsert_self c.attrs p.name p
  · intro q hq
    simp only [Component.add_param]
    rw [RegM.alookup_ainsert, if_neg hq]

/-- Witness for C9 (amended): adding the colliding `pA2` to `cWithA`
overwrites the "A" attribute, appends a duplicate owned name, and leaves the
lookup of any other name unchanged. -/
theorem add_param_spec_witness :
    (cWithA.add_param pA2).params = [("A"), ("A")] ∧
    alookup (cWithA.add_param pA2).attrs ("A") = some pA2 ∧
    alookup (cWithA.add_param pA2).attrs ("B") = alookup cWithA.attrs ("B") := by
  have h := add_param_spec cWithA pA2
  exact ⟨h.1, h.2.1, h.2.2.1 ("B") (by decide)⟩

end ParM

end PintTM
